import Mathlib

/-!
Verification of the duplicate-snapshot change-log reconstruction core
(`src/tools/find_diff_2.py` and `src/tools/find_diff_1.py`).

Python values are embedded as the tagged variant `PyVal` (lists and dicts
as the mutually inductive spines `PyList`/`PyDict`, so that every function
is structurally recursive and computable by the kernel); snapshot records
(`df.to_dict(orient="records")` rows) are dicts with unique keys.
The DeepDiff library itself is not part of the repository, so the
structural diff engine is modelled from the specification (tagged-variant
comparator, unordered-multiset sequences, exclusion by subtree removal);
the scripts' own helpers and loops are translated from the source.
-/

set_option maxHeartbeats 1000000
set_option linter.unusedVariables false
set_option linter.unnecessarySimpa false

/-- One segment of a structural (DeepDiff) path: a quoted dictionary key
`['k']` or a bare numeric sequence index `[i]`. -/
inductive Seg where
  | key : String → Seg
  | idx : Nat → Seg
deriving DecidableEq, Repr

mutual

/-- Embedded Python/JSON value: `None`, bool, int, str, `pd.Timestamp`
(carrying its `isoformat()` text), `datetime` (likewise), list, dict. -/
inductive PyVal where
  | none : PyVal
  | pbool : Bool → PyVal
  | pint : Int → PyVal
  | pstr : String → PyVal
  | timestamp : String → PyVal
  | pdatetime : String → PyVal
  | plist : PyList → PyVal
  | pdict : PyDict → PyVal

/-- Spine of an embedded Python list. -/
inductive PyList where
  | nil : PyList
  | cons : PyVal → PyList → PyList

/-- Spine of an embedded Python dict (keys unique, insertion-ordered). -/
inductive PyDict where
  | nil : PyDict
  | cons : String → PyVal → PyDict → PyDict

end

mutual

/-- Structural equality of embedded values (the derived instance is
unavailable for this mutual inductive, so it is written out). -/
def PyVal.beq : PyVal → PyVal → Bool
  | PyVal.none, PyVal.none => true
  | PyVal.pbool a, PyVal.pbool b => a == b
  | PyVal.pint a, PyVal.pint b => a == b
  | PyVal.pstr a, PyVal.pstr b => a == b
  | PyVal.timestamp a, PyVal.timestamp b => a == b
  | PyVal.pdatetime a, PyVal.pdatetime b => a == b
  | PyVal.plist a, PyVal.plist b => PyList.beq a b
  | PyVal.pdict a, PyVal.pdict b => PyDict.beq a b
  | _, _ => false

/-- Elementwise equality of list spines. -/
def PyList.beq : PyList → PyList → Bool
  | PyList.nil, PyList.nil => true
  | PyList.cons x xs, PyList.cons y ys => PyVal.beq x y && PyList.beq xs ys
  | _, _ => false

/-- Elementwise equality of dict spines. -/
def PyDict.beq : PyDict → PyDict → Bool
  | PyDict.nil, PyDict.nil => true
  | PyDict.cons k v t, PyDict.cons k' v' t' =>
      k == k' && PyVal.beq v v' && PyDict.beq t t'
  | _, _ => false

end

mutual

theorem pyValBeqIff : (a b : PyVal) → (PyVal.beq a b = true ↔ a = b)
  | PyVal.none, b => by cases b <;> simp [PyVal.beq]
  | PyVal.pbool x, b => by cases b <;> simp [PyVal.beq]
  | PyVal.pint x, b => by cases b <;> simp [PyVal.beq]
  | PyVal.pstr x, b => by cases b <;> simp [PyVal.beq]
  | PyVal.timestamp x, b => by cases b <;> simp [PyVal.beq]
  | PyVal.pdatetime x, b => by cases b <;> simp [PyVal.beq]
  | PyVal.plist xs, b => by
      cases b <;> simp [PyVal.beq]
      exact pyListBeqIff xs _
  | PyVal.pdict kvs, b => by
      cases b <;> simp [PyVal.beq]
      exact pyDictBeqIff kvs _

theorem pyListBeqIff : (a b : PyList) → (PyList.beq a b = true ↔ a = b)
  | PyList.nil, b => by cases b <;> simp [PyList.beq]
  | PyList.cons x xs, b => by
      cases b with
      | nil => simp [PyList.beq]
      | cons y ys =>
          simp [PyList.beq, pyValBeqIff x y, pyListBeqIff xs ys]

theorem pyDictBeqIff : (a b : PyDict) → (PyDict.beq a b = true ↔ a = b)
  | PyDict.nil, b => by cases b <;> simp [PyDict.beq]
  | PyDict.cons k v t, b => by
      cases b with
      | nil => simp [PyDict.beq]
      | cons k' v' t' =>
          simp [PyDict.beq, pyValBeqIff v v', pyDictBeqIff t t',
            and_assoc]

end

instance : DecidableEq PyVal :=
  fun a b => decidable_of_iff (PyVal.beq a b = true) (pyValBeqIff a b)

instance : DecidableEq PyList :=
  fun a b => decidable_of_iff (PyList.beq a b = true) (pyListBeqIff a b)

instance : DecidableEq PyDict :=
  fun a b => decidable_of_iff (PyDict.beq a b = true) (pyDictBeqIff a b)

/-- The elements of a list spine, as a Lean list. -/
def PyList.toList : PyList → List PyVal
  | PyList.nil => []
  | PyList.cons x t => x :: t.toList

/-- A list spine from a Lean list (used to write literals). -/
def pyListOf : List PyVal → PyList
  | [] => PyList.nil
  | x :: t => PyList.cons x (pyListOf t)

/-- The bindings of a dict spine, as a Lean association list. -/
def PyDict.toKVs : PyDict → List (String × PyVal)
  | PyDict.nil => []
  | PyDict.cons k v t => (k, v) :: t.toKVs

/-- A dict spine from a Lean association list (used to write literals). -/
def pyDictOf : List (String × PyVal) → PyDict
  | [] => PyDict.nil
  | (k, v) :: t => PyDict.cons k v (pyDictOf t)

/-- A snapshot record: one row of the landing table as a field dict. -/
abbrev Record := PyDict

/-- `d[k]` presence lookup: first binding of `k`, if any. -/
def dictFind : PyDict → String → Option PyVal
  | PyDict.nil, _ => Option.none
  | PyDict.cons k v t, key => if k = key then Option.some v else dictFind t key

/-- Python `record.get(k)`: the bound value, or `None` when the key is
missing (so a missing key and a key bound to `None` are indistinguishable,
exactly as through `dict.get`). -/
def dictGet (d : PyDict) (k : String) : PyVal :=
  match dictFind d k with
  | Option.some v => v
  | Option.none => PyVal.none

/-- `k in d` membership test. -/
def dictHas (d : PyDict) (k : String) : Bool :=
  (dictFind d k).isSome

/-- The dict with every binding of key `k` removed (a dict that never
held `k`). -/
def removeKey : PyDict → String → PyDict
  | PyDict.nil, _ => PyDict.nil
  | PyDict.cons k v t, key =>
      if k = key then removeKey t key else PyDict.cons k v (removeKey t key)

/-- Python truthiness of an embedded value (`bool(v)`). -/
def PyVal.truthy : PyVal → Bool
  | PyVal.none => false
  | PyVal.pbool b => b
  | PyVal.pint n => n != 0
  | PyVal.pstr s => s ≠ ""
  | PyVal.timestamp _ => true
  | PyVal.pdatetime _ => true
  | PyVal.plist xs => !(xs = PyList.nil)
  | PyVal.pdict xs => !(xs = PyDict.nil)

mutual

/-- Python `repr(v)` for embedded values. String quoting uses the single
quote, written `\x27`; dict braces are written `\x7b`/`\x7d`. Timestamp and
datetime reprs are approximate but are never reached by `pick_change_dt`,
which matches those constructors before falling through to `str`. -/
def pyRepr : PyVal → String
  | PyVal.none => "None"
  | PyVal.pbool true => "True"
  | PyVal.pbool false => "False"
  | PyVal.pint n => toString n
  | PyVal.pstr s => "\x27" ++ s ++ "\x27"
  | PyVal.timestamp s => "Timestamp(\x27" ++ s ++ "\x27)"
  | PyVal.pdatetime s => "datetime(\x27" ++ s ++ "\x27)"
  | PyVal.plist xs => "[" ++ pyReprL xs ++ "]"
  | PyVal.pdict kvs => "\x7b" ++ pyReprD kvs ++ "\x7d"

/-- Comma-separated reprs of a list spine's elements. -/
def pyReprL : PyList → String
  | PyList.nil => ""
  | PyList.cons x PyList.nil => pyRepr x
  | PyList.cons x t => pyRepr x ++ ", " ++ pyReprL t

/-- Comma-separated `key: value` reprs of a dict spine's bindings. -/
def pyReprD : PyDict → String
  | PyDict.nil => ""
  | PyDict.cons k v PyDict.nil => "\x27" ++ k ++ "\x27: " ++ pyRepr v
  | PyDict.cons k v t => "\x27" ++ k ++ "\x27: " ++ pyRepr v ++ ", " ++ pyReprD t

end

/-- Python `str(v)`: identity on strings, `repr` otherwise. -/
def pyStr : PyVal → String
  | PyVal.pstr s => s
  | v => pyRepr v

/-- The characters Python `str.strip()` removes (ASCII whitespace:
space, tab, newline, carriage return, vertical tab, form feed). -/
def isPySpace (c : Char) : Bool :=
  c = ' ' || c = '\t' || c = '\n' || c = '\r' || c = '\x0b' || c = '\x0c'

/-- Python `s.strip()`: drop leading and trailing whitespace. -/
def pyStrip (s : String) : String :=
  String.mk (((s.data.dropWhile isPySpace).reverse.dropWhile
    isPySpace).reverse)

/-- Replace every non-overlapping occurrence of `pat` in the character
list, scanning left to right, with fuel bounding the number of steps (the
callers pass the list's length, which suffices since a nonempty match
consumes at least one character; an empty `pat`, which no caller passes,
leaves the text unchanged). -/
def replChars (pat rep : List Char) : Nat → List Char → List Char
  | _, [] => []
  | 0, l => l
  | Nat.succ n, c :: rest =>
      if pat ≠ [] ∧ pat.isPrefixOf (c :: rest) then
        rep ++ replChars pat rep n (List.drop (pat.length - 1) rest)
      else
        c :: replChars pat rep n rest

/-- Python `s.replace(pat, rep)`: all non-overlapping occurrences,
left to right. -/
def pyReplace (s pat rep : String) : String :=
  String.mk (replChars pat.data rep.data s.data.length s.data)

/-- Concatenation of a list of strings (Python `"".join`). -/
def concatAll : List String → String
  | [] => ""
  | s :: t => s ++ concatAll t

/-- Python `sep.join(parts)`. -/
def joinSep (sep : String) : List String → String
  | [] => ""
  | [s] => s
  | s :: t => s ++ sep ++ joinSep sep t

/-- Normalization step of `pick_change_dt` (`find_diff_2.py` lines 31-39),
applied to the selected candidate: `None` stays absent, a `pd.Timestamp`
yields `cand.to_pydatetime().isoformat()`, a `datetime` yields
`cand.isoformat()`, anything else yields `str(cand).strip()`. -/
def normCand : PyVal → Option String
  | PyVal.none => Option.none
  | PyVal.timestamp s => Option.some s
  | PyVal.pdatetime s => Option.some s
  | v => Option.some (pyStrip (pyStr v))

/-- `pick_change_dt` (`find_diff_2.py` lines 25-39):
`cand = record.get("lastMdfcnDt") or record.get("ingested_at")` — Python
`or` keeps the first operand when it is truthy — then normalizes `cand`. -/
def pick_change_dt (record : Record) : Option String :=
  let c1 := dictGet record "lastMdfcnDt"
  normCand (if c1.truthy then c1 else dictGet record "ingested_at")

/-- The dictionary keys of a structural path, in order: exactly what the
regex `\[\x27([^]]+)\x27\]` of `path_to_field` captures from the rendered
DeepDiff path, for keys containing no `]` character (numeric index
segments are rendered without quotes and are not captured). -/
def pathKeys : List Seg → List String
  | [] => []
  | Seg.key k :: rest => k :: pathKeys rest
  | Seg.idx _ :: rest => pathKeys rest

/-- The textual DeepDiff rendering of a structural path:
`root[\x27a\x27][\x27b\x27][0]` style (the quote is `\x27`). -/
def renderPath (p : List Seg) : String :=
  "root" ++ concatAll (p.map (fun s =>
    match s with
    | Seg.key k => "[\x27" ++ k ++ "\x27]"
    | Seg.idx i => "[" ++ toString i ++ "]"))

/-- `path_to_field` (`find_diff_2.py` lines 41-54): extract the quoted key
segments; if any were found, drop a leading `raw_json` and join with `.`
(or return `"root"` when nothing is left); otherwise fall back to string
surgery on the rendered path. -/
def path_to_field (p : List Seg) : String :=
  let parts := pathKeys p
  if parts.isEmpty then
    pyStrip (pyReplace (pyReplace (pyReplace (renderPath p)
      "root[\x27raw_json\x27]" "") "root." "") "root" "")
  else
    let parts2 := if parts.head? = Option.some "raw_json" then parts.tail else parts
    if parts2.isEmpty then "root" else joinSep "." parts2

/-- Field rendering of `find_diff_1.py` line 61:
`path.replace("root[\x27raw_json\x27]", "").replace("root", "").strip()`. -/
def fieldOfPath1 (p : List Seg) : String :=
  pyStrip (pyReplace (pyReplace (renderPath p) "root[\x27raw_json\x27]" "")
    "root" "")

/-- One entry of a structural diff outcome: a value-changed leaf (the
`values_changed` category, the only one the scripts consume), or an item
present on only one side (the added/removed categories, produced but never
consumed by the scripts). -/
inductive DiffEntry where
  | changed : List Seg → PyVal → PyVal → DiffEntry
  | added : List Seg → PyVal → DiffEntry
  | removed : List Seg → PyVal → DiffEntry
deriving DecidableEq

/-- Re-root a diff entry below path segment `s`. -/
def DiffEntry.underSeg (s : Seg) : DiffEntry → DiffEntry
  | DiffEntry.changed p o n => DiffEntry.changed (s :: p) o n
  | DiffEntry.added p v => DiffEntry.added (s :: p) v
  | DiffEntry.removed p v => DiffEntry.removed (s :: p) v

mutual

/-- Modelled from the spec: the Snapshot Normalizer (§4.1) applied at the
current path `p` — any subtree whose full path is listed in `ex` is removed
entirely before comparison; everything else keeps its shape. The DeepDiff
library that implements this (`exclude_paths=` argument) is not part of
the repository. -/
def normAux (ex : List (List Seg)) : List Seg → PyVal → PyVal
  | p, PyVal.pdict kvs => PyVal.pdict (normD ex p kvs)
  | p, PyVal.plist xs => PyVal.plist (normL ex p 0 xs)
  | _, v => v

/-- Normalization of a dict spine under path `p`. -/
def normD (ex : List (List Seg)) : List Seg → PyDict → PyDict
  | _, PyDict.nil => PyDict.nil
  | p, PyDict.cons k v t =>
      if (p ++ [Seg.key k]) ∈ ex then normD ex p t
      else PyDict.cons k (normAux ex (p ++ [Seg.key k]) v) (normD ex p t)

/-- Normalization of a list spine under path `p`, `i` being the index of
the head element. -/
def normL (ex : List (List Seg)) : List Seg → Nat → PyList → PyList
  | _, _, PyList.nil => PyList.nil
  | p, i, PyList.cons x t =>
      PyList.cons (normAux ex (p ++ [Seg.idx i]) x) (normL ex p (i + 1) t)

end

/-- Modelled from the spec: normalization of a whole snapshot tree. -/
def normalizeTree (ex : List (List Seg)) (v : PyVal) : PyVal :=
  normAux ex [] v

/-- Modelled from the spec: unordered-multiset comparison of two sequences
(§4.2, §9) — elements common to both multisets cancel (`List.diff`, one
occurrence at a time, both ways); the surviving surplus elements are paired
up as value-changed leaves and the leftovers reported added/removed.
Multiset element equality is structural equality of the embedded values. -/
def listDiffEntries (a b : List PyVal) : List DiffEntry :=
  let rem := a.diff b
  let add := b.diff a
  ((rem.zip add).enum.map
    (fun x => DiffEntry.changed [Seg.idx x.1] x.2.1 x.2.2))
  ++ ((rem.drop add.length).enum.map
      (fun x => DiffEntry.removed [Seg.idx (add.length + x.1)] x.2))
  ++ ((add.drop rem.length).enum.map
      (fun x => DiffEntry.added [Seg.idx (rem.length + x.1)] x.2))

/-- Keys of `B` absent from `A`, reported as additions (spec §4.2: keys
present in only one side are an add/remove, never a value change). -/
def addedEntries (A B : PyDict) : List DiffEntry :=
  (B.toKVs.filter (fun kv => !(dictHas A kv.1))).map
    (fun kv => DiffEntry.added [Seg.key kv.1] kv.2)

mutual

/-- Modelled from the spec: the Structural Diff Engine (§4.2, §9),
standing in for the DeepDiff library (`ignore_order=True`), which is not
part of the repository. Exhaustive over the tagged variant: mapping vs
mapping recurses per shared key and reports one-sided keys as
added/removed; sequence vs sequence is compared as unordered multisets;
every other pair — equal-type scalars or a type mismatch — is a single
value-changed leaf with the two raw values iff the values differ. -/
def diffV : PyVal → PyVal → List DiffEntry
  | PyVal.pdict A, PyVal.pdict B => diffDict A B ++ addedEntries A B
  | PyVal.plist A, PyVal.plist B => listDiffEntries A.toList B.toList
  | a, b => if a = b then [] else [DiffEntry.changed [] a b]

/-- Walk the base dict spine: shared keys recurse (re-rooted below the
key), keys missing from `B` are removals. -/
def diffDict : PyDict → PyDict → List DiffEntry
  | PyDict.nil, _ => []
  | PyDict.cons k v t, B =>
      (match dictFind B k with
       | Option.some bv => (diffV v bv).map (DiffEntry.underSeg (Seg.key k))
       | Option.none => [DiffEntry.removed [Seg.key k] v])
      ++ diffDict t B

end

/-- The `exclude_paths` argument of the DeepDiff call
(`find_diff_2.py` lines 91-97 and `find_diff_1.py` lines 51-57). -/
def excludePaths : List (List Seg) :=
  [[Seg.key "lastMdfcnDt"], [Seg.key "frstRegDt"], [Seg.key "ingested_at"],
   [Seg.key "record_hash"], [Seg.key "raw_ingest_id"]]

/-- The DeepDiff invocation shared by both scripts: normalize each record
with the configured exclusions, then diff structurally. -/
def deepDiff (base other : Record) : List DiffEntry :=
  diffV (normalizeTree excludePaths (PyVal.pdict base))
    (normalizeTree excludePaths (PyVal.pdict other))

/-- `diff["values_changed"]` as (path, old_value, new_value) triples — the
only diff category either script consumes. -/
def valuesChanged (d : List DiffEntry) : List (List Seg × PyVal × PyVal) :=
  d.filterMap (fun e =>
    match e with
    | DiffEntry.changed p o n => Option.some (p, o, n)
    | _ => Option.none)

/-- One output row of `find_diff_2.py` (the `diff_rows.append` dict,
lines 105-113). -/
structure Row where
  policy_id : String
  compare_seq : Nat
  field : String
  old_value : PyVal
  new_value : PyVal
  base_change_dt : Option String
  change_dt : Option String
deriving DecidableEq

/-- The rows one loop iteration of `find_diff_2.py` appends for comparing
`base` against `other` at rank `idx`. -/
def rowsOfComparison (pid : String) (idx : Nat) (base other : Record)
    (baseDt changeDt : Option String) : List Row :=
  (valuesChanged (deepDiff base other)).map
    (fun c => ⟨pid, idx, path_to_field c.1, c.2.1, c.2.2, baseDt, changeDt⟩)

/-- The inner loop of `find_diff_2.py` (lines 86-117):
`for idx, other in enumerate(records[1:], start=2)` with the held base and
its resolved timestamp, rolling both forward (`base = other;
base_change_dt = change_dt`) after each comparison. -/
def diffLoop (pid : String) :
    Record → Option String → List Record → Nat → List Row
  | _, _, [], _ => []
  | base, baseDt, other :: rest, idx =>
      rowsOfComparison pid idx base other baseDt (pick_change_dt other)
        ++ diffLoop pid other (pick_change_dt other) rest (idx + 1)

/-- All rows `find_diff_2.py` appends for one `policy_id` group (lines
77-117): groups of at most one record are skipped, otherwise the chain
starts from `base = records[0]` with `compare_seq` starting at 2. -/
def entityDiffRows (pid : String) (records : List Record) : List Row :=
  match records with
  | [] => []
  | [_] => []
  | base :: rest => diffLoop pid base (pick_change_dt base) rest 2

/-- The same loop with its iterations kept apart: one
`(compare_seq, appended rows)` group per executed comparison. -/
def diffLoopGroups (pid : String) :
    Record → Option String → List Record → Nat → List (Nat × List Row)
  | _, _, [], _ => []
  | base, baseDt, other :: rest, idx =>
      (idx, rowsOfComparison pid idx base other baseDt (pick_change_dt other))
        :: diffLoopGroups pid other (pick_change_dt other) rest (idx + 1)

/-- The comparisons `find_diff_2.py` performs for one `policy_id` group,
as (compare_seq, appended rows) pairs. -/
def entityComparisons (pid : String) (records : List Record) :
    List (Nat × List Row) :=
  match records with
  | [] => []
  | [_] => []
  | base :: rest => diffLoopGroups pid base (pick_change_dt base) rest 2

/-- One output row of `find_diff_1.py` (lines 62-68). -/
structure Row1 where
  policy_id : String
  record_idx : Nat
  field : String
  old_value : PyVal
  new_value : PyVal
deriving DecidableEq

/-- The inner loop of `find_diff_1.py` (lines 46-68): the base is fixed at
`records[0]` and never advances. -/
def diffLoop1 (pid : String) (base : Record) : List Record → Nat → List Row1
  | [], _ => []
  | other :: rest, idx =>
      ((valuesChanged (deepDiff base other)).map
        (fun c => ⟨pid, idx, fieldOfPath1 c.1, c.2.1, c.2.2⟩))
        ++ diffLoop1 pid base rest (idx + 1)

/-- All rows `find_diff_1.py` appends for one `policy_id` group
(lines 42-68). -/
def entityDiffRows1 (pid : String) (records : List Record) : List Row1 :=
  match records with
  | [] => []
  | [_] => []
  | base :: rest => diffLoop1 pid base rest 2

/-- The Change Sequencer output as the spec words it (§3, §4.5): one
comparison per chronologically adjacent pair of snapshots, the base of the
comparison at `compare_sequence = k` being snapshot k−1 and each side's
timestamp being resolved from that very snapshot. -/
def chainRows (pid : String) (records : List Record) : List Row :=
  (List.enumFrom 2 (records.zip records.tail)).flatMap
    (fun x => rowsOfComparison pid x.1 x.2.1 x.2.2
      (pick_change_dt x.2.1) (pick_change_dt x.2.2))

/-! ### Helper lemmas -/

theorem valuesChanged_append (l1 l2 : List DiffEntry) :
    valuesChanged (l1 ++ l2) = valuesChanged l1 ++ valuesChanged l2 := by
  simp [valuesChanged, List.filterMap_append]

theorem valuesChanged_map_underSeg (s : Seg) :
    ∀ l : List DiffEntry,
      valuesChanged (l.map (DiffEntry.underSeg s)) =
        (valuesChanged l).map (fun c => (s :: c.1, c.2))
  | [] => rfl
  | e :: t => by
      have ih := valuesChanged_map_underSeg s t
      cases e <;>
        simp [valuesChanged, DiffEntry.underSeg, List.filterMap_cons] at ih ⊢ <;>
        simp [ih]

theorem valuesChanged_addedEntries (A B : PyDict) :
    valuesChanged (addedEntries A B) = [] := by
  unfold addedEntries
  generalize (PyDict.toKVs B).filter (fun kv => !(dictHas A kv.1)) = l
  induction l with
  | nil => rfl
  | cons kv t ih => simpa [valuesChanged, List.filterMap_cons] using ih

theorem dictHas_cons_self (k : String) (v : PyVal) (t : PyDict) :
    dictHas (PyDict.cons k v t) k = true := by
  simp [dictHas, dictFind]

theorem dictHas_cons_of (k' k : String) (v : PyVal) (t : PyDict)
    (h : dictHas t k' = true) : dictHas (PyDict.cons k v t) k' = true := by
  unfold dictHas dictFind
  by_cases hk : k = k'
  · simp [hk]
  · simpa [hk] using h

theorem diffDict_changed_key : (A : PyDict) → (B : PyDict) →
    ∀ c ∈ valuesChanged (diffDict A B),
      ∃ kk t, c.1 = Seg.key kk :: t ∧ dictHas A kk = true
  | PyDict.nil, B => by simp [diffDict, valuesChanged]
  | PyDict.cons k v rest, B => by
      intro c hc
      rw [diffDict, valuesChanged_append] at hc
      rcases List.mem_append.mp hc with hcl | hcr
      · cases hfind : dictFind B k with
        | some bv =>
            rw [hfind] at hcl
            rw [valuesChanged_map_underSeg] at hcl
            obtain ⟨c0, hc0, hceq⟩ := List.mem_map.mp hcl
            refine ⟨k, c0.1, ?_, dictHas_cons_self k v rest⟩
            rw [← hceq]
        | none =>
            rw [hfind] at hcl
            simp [valuesChanged, List.filterMap_cons] at hcl
      · obtain ⟨kk, t, hpath, hhas⟩ := diffDict_changed_key rest B c hcr
        exact ⟨kk, t, hpath, dictHas_cons_of kk k v rest hhas⟩

theorem dictHas_normD (ex : List (List Seg)) : (A : PyDict) → ∀ p kk,
    dictHas (normD ex p A) kk = true → ¬ ((p ++ [Seg.key kk]) ∈ ex)
  | PyDict.nil, p, kk => by simp [normD, dictHas, dictFind]
  | PyDict.cons k v t, p, kk => by
      intro h hmem
      rw [normD] at h
      by_cases hex : (p ++ [Seg.key k]) ∈ ex
      · rw [if_pos hex] at h
        exact dictHas_normD ex t p kk h hmem
      · rw [if_neg hex] at h
        by_cases hkk : k = kk
        · subst hkk
          exact hex hmem
        · have h2 : dictHas (normD ex p t) kk = true := by
            unfold dictHas dictFind at h
            simpa [hkk] using h
          exact dictHas_normD ex t p kk h2 hmem

theorem excludePaths_shape : ∀ q ∈ excludePaths, ∃ s, q = [Seg.key s] := by
  intro q hq
  simp [excludePaths] at hq
  rcases hq with h | h | h | h | h <;> exact ⟨_, h⟩

theorem diffLoop_chain (pid : String) :
    ∀ (rest : List Record) (base : Record) (idx : Nat),
      diffLoop pid base (pick_change_dt base) rest idx =
        (List.enumFrom idx ((base :: rest).zip rest)).flatMap
          (fun x => rowsOfComparison pid x.1 x.2.1 x.2.2
            (pick_change_dt x.2.1) (pick_change_dt x.2.2))
  | [], base, idx => by simp [diffLoop]
  | o :: rest, base, idx => by
      have ih := diffLoop_chain pid rest o (idx + 1)
      simp only [diffLoop, List.zip_cons_cons, List.enumFrom,
        List.flatMap_cons, ih]
      rfl

theorem diffLoopGroups_fst (pid : String) :
    ∀ (rest : List Record) (base : Record) (bdt : Option String) (idx : Nat),
      (diffLoopGroups pid base bdt rest idx).map Prod.fst =
        List.range' idx rest.length
  | [], base, bdt, idx => by simp [diffLoopGroups, List.range']
  | o :: rest, base, bdt, idx => by
      have ih := diffLoopGroups_fst pid rest o (pick_change_dt o) (idx + 1)
      simp [diffLoopGroups, List.range', ih]

theorem diffLoop_eq_flat (pid : String) :
    ∀ (rest : List Record) (base : Record) (bdt : Option String) (idx : Nat),
      diffLoop pid base bdt rest idx =
        (diffLoopGroups pid base bdt rest idx).flatMap Prod.snd
  | [], base, bdt, idx => by simp [diffLoop, diffLoopGroups]
  | o :: rest, base, bdt, idx => by
      have ih := diffLoop_eq_flat pid rest o (pick_change_dt o) (idx + 1)
      simp [diffLoop, diffLoopGroups, ih]

theorem list_diff_self {α : Type} [DecidableEq α] :
    ∀ l : List α, l.diff l = []
  | [] => rfl
  | a :: l => by
      rw [List.diff_cons, List.erase_cons_head]
      exact list_diff_self l

theorem perm_diff_nil {α : Type} [DecidableEq α] {a b : List α}
    (h : a.Perm b) : a.diff b = [] := by
  have h2 := h.diff_right b
  rw [list_diff_self] at h2
  exact h2.eq_nil

theorem pathKeys_map_key : ∀ ks : List String, pathKeys (ks.map Seg.key) = ks
  | [] => rfl
  | k :: ks => by simp [pathKeys, pathKeys_map_key ks]

theorem pathKeys_append : ∀ p q : List Seg,
    pathKeys (p ++ q) = pathKeys p ++ pathKeys q
  | [], q => rfl
  | Seg.key k :: p, q => by simp [pathKeys, pathKeys_append p q]
  | Seg.idx i :: p, q => by simp [pathKeys, pathKeys_append p q]

mutual

theorem normAux_deep_id (ex : List (List Seg))
    (hex : ∀ q ∈ ex, q.length = 1) :
    (v : PyVal) → ∀ p : List Seg, p ≠ [] → normAux ex p v = v
  | PyVal.none, p, hp => by simp [normAux]
  | PyVal.pbool b, p, hp => by simp [normAux]
  | PyVal.pint n, p, hp => by simp [normAux]
  | PyVal.pstr s, p, hp => by simp [normAux]
  | PyVal.timestamp s, p, hp => by simp [normAux]
  | PyVal.pdatetime s, p, hp => by simp [normAux]
  | PyVal.plist xs, p, hp => by
      rw [normAux, normL_deep_id ex hex xs p 0 hp]
  | PyVal.pdict kvs, p, hp => by
      rw [normAux, normD_deep_id ex hex kvs p hp]

theorem normD_deep_id (ex : List (List Seg))
    (hex : ∀ q ∈ ex, q.length = 1) :
    (kvs : PyDict) → ∀ p : List Seg, p ≠ [] → normD ex p kvs = kvs
  | PyDict.nil, p, hp => by simp [normD]
  | PyDict.cons k v t, p, hp => by
      have hnot : ¬ ((p ++ [Seg.key k]) ∈ ex) := by
        intro hmem
        have hlen := hex _ hmem
        rw [List.length_append, List.length_singleton] at hlen
        exact hp (List.length_eq_zero.mp (by omega))
      rw [normD, if_neg hnot,
        normAux_deep_id ex hex v (p ++ [Seg.key k]) (by simp),
        normD_deep_id ex hex t p hp]

theorem normL_deep_id (ex : List (List Seg))
    (hex : ∀ q ∈ ex, q.length = 1) :
    (xs : PyList) → ∀ (p : List Seg) (i : Nat), p ≠ [] →
      normL ex p i xs = xs
  | PyList.nil, p, i, hp => by simp [normL]
  | PyList.cons x t, p, i, hp => by
      rw [normL, normAux_deep_id ex hex x (p ++ [Seg.idx i]) (by simp),
        normL_deep_id ex hex t p (i + 1) hp]

end

/-- The constructor tag of a value — its Python runtime type. -/
def PyVal.tag : PyVal → Nat
  | PyVal.none => 0
  | PyVal.pbool _ => 1
  | PyVal.pint _ => 2
  | PyVal.pstr _ => 3
  | PyVal.timestamp _ => 4
  | PyVal.pdatetime _ => 5
  | PyVal.plist _ => 6
  | PyVal.pdict _ => 7

theorem dictFind_removeKey_self : ∀ (d : PyDict) (k : String),
    dictFind (removeKey d k) k = Option.none
  | PyDict.nil, k => rfl
  | PyDict.cons k0 v t, k => by
      rw [removeKey]
      by_cases h : k0 = k
      · rw [if_pos h]
        exact dictFind_removeKey_self t k
      · rw [if_neg h, dictFind, if_neg h]
        exact dictFind_removeKey_self t k

theorem dictFind_removeKey_ne : ∀ (d : PyDict) (k k' : String), k' ≠ k →
    dictFind (removeKey d k) k' = dictFind d k'
  | PyDict.nil, k, k', h => rfl
  | PyDict.cons k0 v t, k, k', h => by
      rw [removeKey]
      by_cases h0 : k0 = k
      · have h1 : k0 ≠ k' := by rw [h0]; exact fun he => h he.symm
        rw [if_pos h0, dictFind, if_neg h1]
        exact dictFind_removeKey_ne t k k' h
      · rw [if_neg h0, dictFind, dictFind]
        by_cases h1 : k0 = k'
        · rw [if_pos h1, if_pos h1]
        · rw [if_neg h1, if_neg h1]
          exact dictFind_removeKey_ne t k k' h

/-- A one-field snapshot `{"x": n}`, used in concrete chain scenarios. -/
def snapX (n : Int) : Record := pyDictOf [("x", PyVal.pint n)]

/-! ### Claim theorems -/

/-- C1, counterexample: the claim fails on `find_diff_1.py`, whose base
stays at the first record. On snapshots S1=\x7bx:1\x7d, S2=\x7bx:2\x7d,
S3=\x7bx:3\x7d it emits (seq=3, x: 1→3) even though snapshot 2 holds x=2,
so the old_value at compare_sequence 3 is not drawn from snapshot 2. -/
theorem find_diff_1_emits_first_to_third :
    entityDiffRows1 "P1" [snapX 1, snapX 2, snapX 3] =
      [⟨"P1", 2, "[\x27x\x27]", PyVal.pint 1, PyVal.pint 2⟩,
       ⟨"P1", 3, "[\x27x\x27]", PyVal.pint 1, PyVal.pint 3⟩]
    ∧ dictGet (snapX 2) "x" = PyVal.pint 2 := by
  constructor
  · decide
  · decide

/-- C1, amended: `find_diff_2.py` does roll the base forward — its whole
output for an entity equals the chained pairwise comparisons of adjacent
snapshots (`chainRows`), so every row at `compare_seq = k` is computed by
diffing snapshot k−1 against snapshot k; in particular S1=\x7bx:1\x7d,
S2=\x7bx:2\x7d, S3=\x7bx:3\x7d give (seq=2, 1→2), (seq=3, 2→3).
`find_diff_1.py` instead always compares against the first record
(see the counterexample). -/
theorem base_rolls_forward_in_find_diff_2 :
    (∀ (pid : String) (records : List Record),
      entityDiffRows pid records = chainRows pid records)
    ∧ entityDiffRows "P1" [snapX 1, snapX 2, snapX 3] =
        [⟨"P1", 2, "x", PyVal.pint 1, PyVal.pint 2, Option.none, Option.none⟩,
         ⟨"P1", 3, "x", PyVal.pint 2, PyVal.pint 3, Option.none, Option.none⟩] := by
  constructor
  · intro pid records
    match records with
    | [] => simp [entityDiffRows, chainRows]
    | [r] => simp [entityDiffRows, chainRows]
    | r1 :: r2 :: rest =>
        rw [entityDiffRows]
        · rw [diffLoop_chain pid (r2 :: rest) r1 2]
          rfl
        · simp
  · decide

/-- C2, counterexample: a nested `raw_json.lastMdfcnDt` change IS emitted,
and after wrapper stripping its `field_path` is the bare name
`"lastMdfcnDt"` — exactly the formatted form of the excluded path
`root[\x27lastMdfcnDt\x27]`, contradicting the claim that no ChangeEvent
ever carries that formatted field path. -/
theorem excluded_field_name_reported_from_raw_json :
    entityDiffRows "P1"
      [pyDictOf [("raw_json",
          PyVal.pdict (pyDictOf [("lastMdfcnDt", PyVal.pstr "a")]))],
       pyDictOf [("raw_json",
          PyVal.pdict (pyDictOf [("lastMdfcnDt", PyVal.pstr "b")]))]] =
      [⟨"P1", 2, "lastMdfcnDt", PyVal.pstr "a", PyVal.pstr "b",
        Option.none, Option.none⟩]
    ∧ path_to_field [Seg.key "lastMdfcnDt"] = "lastMdfcnDt" := by
  constructor
  · decide
  · decide

/-- C2, amended: the exclusion invariant holds at the level of structural
paths — for every pair of records, no `values_changed` leaf (hence no
emitted row) has a structural path equal to or below one of the five
excluded top-level paths. (The formatted field STRING of an excluded name
can still be emitted, because a nested `raw_json` field of the same name
formats identically — see the counterexample.) -/
theorem excluded_structural_paths_never_emitted :
    ∀ (base other : Record) (p0 : List Seg), p0 ∈ excludePaths →
      ∀ c ∈ valuesChanged (deepDiff base other), ¬ ∃ t, p0 ++ t = c.1 := by
  intro base other p0 hp0 c hc hpre
  obtain ⟨t, ht⟩ := hpre
  have hdd : deepDiff base other =
      diffDict (normD excludePaths [] base) (normD excludePaths [] other)
        ++ addedEntries (normD excludePaths [] base)
            (normD excludePaths [] other) := by
    simp [deepDiff, normalizeTree, normAux, diffV]
  rw [hdd, valuesChanged_append] at hc
  rcases List.mem_append.mp hc with hcl | hcr
  · obtain ⟨kk, tt, hpath, hhas⟩ := diffDict_changed_key _ _ c hcl
    obtain ⟨s, hs⟩ := excludePaths_shape p0 hp0
    subst hs
    rw [hpath] at ht
    have hsk : s = kk := by
      have h2 := List.head_eq_of_cons_eq ht
      exact Seg.key.inj h2
    subst hsk
    exact dictHas_normD excludePaths _ [] s hhas (by simpa using hp0)
  · rw [valuesChanged_addedEntries] at hcr
    exact absurd hcr (List.not_mem_nil c)

/-- Witness for C2's amended theorem: on records \x7ba:1\x7d vs
\x7ba:2\x7d the single emitted leaf has path `[key a]`, which no excluded
path prefixes. -/
theorem excluded_structural_paths_never_emitted_witness :
    ¬ ∃ t, [Seg.key "lastMdfcnDt"] ++ t = [Seg.key "a"] :=
  excluded_structural_paths_never_emitted
    (pyDictOf [("a", PyVal.pint 1)]) (pyDictOf [("a", PyVal.pint 2)])
    [Seg.key "lastMdfcnDt"] (by decide)
    ([Seg.key "a"], PyVal.pint 1, PyVal.pint 2) (by decide)

/-- C3: for every entity group, the comparisons performed have
`compare_seq` values exactly `range' 2 (N−1)` (so N−1 comparisons numbered
2..N, and none for groups of length ≤ 1), the emitted rows are exactly the
concatenation of those comparisons' rows, and a single-snapshot entity
yields zero rows. -/
theorem chain_length_and_seqs :
    ∀ (pid : String) (records : List Record) (r0 : Record),
      ((entityComparisons pid records).map Prod.fst =
        List.range' 2 (records.length - 1))
      ∧ (entityDiffRows pid records =
          (entityComparisons pid records).flatMap Prod.snd)
      ∧ entityDiffRows pid [r0] = [] := by
  intro pid records r0
  refine ⟨?_, ?_, by simp [entityDiffRows]⟩
  · match records with
    | [] => simp [entityComparisons, List.range']
    | [r] => simp [entityComparisons, List.range']
    | r1 :: r2 :: rest =>
        rw [entityComparisons]
        · rw [diffLoopGroups_fst pid (r2 :: rest) r1 _ 2]
          simp
        · simp
  · match records with
    | [] => simp [entityComparisons, entityDiffRows]
    | [r] => simp [entityComparisons, entityDiffRows]
    | r1 :: r2 :: rest =>
        rw [entityComparisons]
        · rw [entityDiffRows]
          · rw [diffLoop_eq_flat pid (r2 :: rest) r1 _ 2]
          · simp
        · simp

/-- C4, counterexample: with both candidate fields present but
whitespace-only, `pick_change_dt` returns the empty string (`str.strip()`
of the truthy whitespace primary), not the absent marker `None` that the
claim requires for the "both empty/whitespace" case. -/
theorem whitespace_candidates_yield_empty_string :
    pick_change_dt (pyDictOf
      [("lastMdfcnDt", PyVal.pstr " "), ("ingested_at", PyVal.pstr " ")]) =
      Option.some ""
    ∧ Option.some "" ≠ (Option.none : Option String) := by
  constructor
  · decide
  · decide

/-- C4, amended: the resolver tries `lastMdfcnDt` first and falls back to
`ingested_at` exactly when the primary is falsy; the selected candidate is
normalized — `None` to absent, a typed timestamp or datetime to its ISO
text, a text value to its trimmed self (not validated as a date). Absent
(`None`) is returned iff the selected candidate is Python `None`; an
empty or whitespace-only text candidate yields `""` instead. -/
theorem pick_change_dt_characterization :
    ∀ (r : Record) (s : String),
      ((dictGet r "lastMdfcnDt").truthy = true →
        pick_change_dt r = normCand (dictGet r "lastMdfcnDt"))
      ∧ ((dictGet r "lastMdfcnDt").truthy = false →
        pick_change_dt r = normCand (dictGet r "ingested_at"))
      ∧ normCand PyVal.none = Option.none
      ∧ normCand (PyVal.timestamp s) = Option.some s
      ∧ normCand (PyVal.pdatetime s) = Option.some s
      ∧ normCand (PyVal.pstr s) = Option.some (pyStrip s) := by
  intro r s
  refine ⟨?_, ?_, rfl, rfl, rfl, rfl⟩
  · intro h; rw [pick_change_dt]; simp [h]
  · intro h; rw [pick_change_dt]; simp [h]

/-- Witness for C4's amended theorem at a record whose primary field holds
a typed timestamp. -/
theorem pick_change_dt_characterization_witness :
    pick_change_dt (pyDictOf
      [("lastMdfcnDt", PyVal.timestamp "2024-01-01T00:00:00")]) =
      normCand (dictGet (pyDictOf
        [("lastMdfcnDt", PyVal.timestamp "2024-01-01T00:00:00")])
        "lastMdfcnDt") :=
  (pick_change_dt_characterization
    (pyDictOf [("lastMdfcnDt", PyVal.timestamp "2024-01-01T00:00:00")])
    "").1 (by decide)

/-- C5: whenever base and other hold values of different runtime types
(different constructor tags, e.g. scalar vs mapping, or numeric 1 vs
textual "1"), the diff is exactly one value-changed leaf carrying the two
raw values — the comparator is total, so no heterogeneous pair is an
error — and the leaf is surfaced as an emitted row. -/
theorem type_mismatch_single_changed_leaf :
    (∀ a b : PyVal, PyVal.tag a ≠ PyVal.tag b →
      diffV a b = [DiffEntry.changed [] a b])
    ∧ entityDiffRows "P1"
        [pyDictOf [("f", PyVal.pint 1)], pyDictOf [("f", PyVal.pstr "1")]] =
        [⟨"P1", 2, "f", PyVal.pint 1, PyVal.pstr "1",
          Option.none, Option.none⟩] := by
  constructor
  · intro a b h
    cases a <;> cases b <;> simp_all [PyVal.tag, diffV]
  · decide

/-- Witness for C5 at the numeric-1 versus textual-"1" pair. -/
theorem type_mismatch_single_changed_leaf_witness :
    diffV (PyVal.pint 1) (PyVal.pstr "1") =
      [DiffEntry.changed [] (PyVal.pint 1) (PyVal.pstr "1")] :=
  type_mismatch_single_changed_leaf.1 (PyVal.pint 1) (PyVal.pstr "1")
    (by decide)

/-- C6, counterexample: comparing a record MISSING field `a` against one
holding `a="x"` emits nothing (the difference is only a dictionary
addition, a category the scripts never read), which is the same outcome
as comparing `a="x"` with itself — the claim requires those two outcomes
to differ. -/
theorem missing_to_value_same_as_unchanged :
    entityDiffRows "P1" [PyDict.nil, pyDictOf [("a", PyVal.pstr "x")]] = []
    ∧ entityDiffRows "P1"
        [pyDictOf [("a", PyVal.pstr "x")], pyDictOf [("a", PyVal.pstr "x")]] =
        [] := by
  constructor
  · decide
  · decide

/-- C6, amended: present-with-null and entirely-missing indeed yield no
ChangeEvent against each other; present-with-null against `"x"` yields one
ChangeEvent (null → "x"); but entirely-missing against `"x"` surfaces only
as a dictionary addition, which the scripts do not consume, so at the
ChangeEvent level it is indistinguishable from no change at all. -/
theorem null_and_missing_compare_as_absent :
    entityDiffRows "P1" [pyDictOf [("a", PyVal.none)], PyDict.nil] = []
    ∧ entityDiffRows "P1" [PyDict.nil, pyDictOf [("a", PyVal.none)]] = []
    ∧ entityDiffRows "P1"
        [pyDictOf [("a", PyVal.none)], pyDictOf [("a", PyVal.pstr "x")]] =
        [⟨"P1", 2, "a", PyVal.none, PyVal.pstr "x",
          Option.none, Option.none⟩]
    ∧ entityDiffRows "P1" [PyDict.nil, pyDictOf [("a", PyVal.pstr "x")]] = []
    ∧ deepDiff PyDict.nil (pyDictOf [("a", PyVal.pstr "x")]) =
        [DiffEntry.added [Seg.key "a"] (PyVal.pstr "x")] := by
  refine ⟨by decide, by decide, by decide, by decide, by decide⟩

/-- C7: sequences compare as unordered multisets — permuted element lists
produce an empty diff for any contents; concretely,
tags ["a","b"] vs ["b","a"] emits nothing while ["a","b"] vs ["a","c"]
emits exactly one change (b → c). -/
theorem unordered_sequence_diff :
    (∀ A B : PyList, A.toList.Perm B.toList →
      diffV (PyVal.plist A) (PyVal.plist B) = [])
    ∧ entityDiffRows "P1"
        [pyDictOf [("tags",
            PyVal.plist (pyListOf [PyVal.pstr "a", PyVal.pstr "b"]))],
         pyDictOf [("tags",
            PyVal.plist (pyListOf [PyVal.pstr "b", PyVal.pstr "a"]))]] = []
    ∧ entityDiffRows "P1"
        [pyDictOf [("tags",
            PyVal.plist (pyListOf [PyVal.pstr "a", PyVal.pstr "b"]))],
         pyDictOf [("tags",
            PyVal.plist (pyListOf [PyVal.pstr "a", PyVal.pstr "c"]))]] =
        [⟨"P1", 2, "tags", PyVal.pstr "b", PyVal.pstr "c",
          Option.none, Option.none⟩] := by
  refine ⟨?_, by decide, by decide⟩
  intro A B h
  rw [diffV]
  simp [listDiffEntries, perm_diff_nil h, perm_diff_nil h.symm]

/-- Witness for C7 at the permuted pair ["a","b"] / ["b","a"]. -/
theorem unordered_sequence_diff_witness :
    diffV (PyVal.plist (pyListOf [PyVal.pstr "a", PyVal.pstr "b"]))
      (PyVal.plist (pyListOf [PyVal.pstr "b", PyVal.pstr "a"])) = [] :=
  unordered_sequence_diff.1
    (pyListOf [PyVal.pstr "a", PyVal.pstr "b"])
    (pyListOf [PyVal.pstr "b", PyVal.pstr "a"]) (by decide)

/-- C8, counterexample: two distinguishable structural paths collide —
the single key `a.b` and the key pair `a`,`b` both format to `"a.b"`,
contradicting the claim that distinguishable paths never collide. -/
theorem path_format_collision :
    path_to_field [Seg.key "a.b"] = "a.b"
    ∧ path_to_field [Seg.key "a", Seg.key "b"] = "a.b"
    ∧ [Seg.key "a.b"] ≠ [Seg.key "a", Seg.key "b"] := by
  refine ⟨by decide, by decide, by decide⟩

/-- C8, amended: on key paths the formatter joins the keys with ".",
drops a leading `raw_json`, and renders an emptied path as the literal
`"root"`; trailing numeric index segments are dropped (the regex captures
only quoted segments); being a function it is deterministic — but
distinct paths can collide (dotted keys, dropped indices), as the
counterexample shows. -/
theorem path_to_field_characterization :
    ∀ (ks : List String) (p : List Seg) (i : Nat),
      (ks ≠ [] →
        path_to_field (ks.map Seg.key) =
          (if ks.head? = Option.some "raw_json" then
            (if ks.tail = [] then "root" else joinSep "." ks.tail)
           else joinSep "." ks))
      ∧ (pathKeys p ≠ [] →
          path_to_field (p ++ [Seg.idx i]) = path_to_field p)
      ∧ path_to_field [Seg.key "raw_json"] = "root" := by
  intro ks p i
  refine ⟨?_, ?_, by decide⟩
  · intro hks
    rw [path_to_field]
    simp only [pathKeys_map_key]
    rw [if_neg (by simpa [List.isEmpty_iff] using hks)]
    by_cases hh : ks.head? = Option.some "raw_json"
    · rw [if_pos hh, if_pos hh]
      by_cases ht : ks.tail = []
      · rw [if_pos ht, if_pos (by simpa [List.isEmpty_iff] using ht)]
      · rw [if_neg ht, if_neg (by simpa [List.isEmpty_iff] using ht)]
    · rw [if_neg hh, if_neg hh, if_neg (by simpa [List.isEmpty_iff] using hks)]
  · intro hp
    rw [path_to_field, path_to_field]
    have hkeys : pathKeys (p ++ [Seg.idx i]) = pathKeys p := by
      rw [pathKeys_append]; simp [pathKeys]
    simp only [hkeys]
    have hC : (pathKeys p).isEmpty = false := by
      cases hpk : pathKeys p with
      | nil => exact absurd hpk hp
      | cons a l => rfl
    simp [hC]

/-- Witness for C8's amended theorem on the path `raw_json.status`. -/
theorem path_to_field_characterization_witness :
    path_to_field (["raw_json", "status"].map Seg.key) =
      (if (["raw_json", "status"] : List String).head? =
          Option.some "raw_json" then
        (if (["raw_json", "status"] : List String).tail = [] then "root"
         else joinSep "." (["raw_json", "status"] : List String).tail)
       else joinSep "." ["raw_json", "status"]) :=
  (path_to_field_characterization ["raw_json", "status"] [] 0).1 (by decide)

/-- C9: when the primary field `lastMdfcnDt` holds a falsy value (`None`
or the empty string), the resolver behaves exactly as if the field were
absent — it returns the normalized fallback `ingested_at` value, equal to
resolving the record with the primary key deleted — and when both fields
hold empty strings the result is `some ""`, not the absent marker. -/
theorem falsy_primary_falls_back :
    (∀ r : Record,
      (dictGet r "lastMdfcnDt" = PyVal.none ∨
        dictGet r "lastMdfcnDt" = PyVal.pstr "") →
      pick_change_dt r = normCand (dictGet r "ingested_at")
      ∧ pick_change_dt r = pick_change_dt (removeKey r "lastMdfcnDt"))
    ∧ pick_change_dt (pyDictOf
        [("lastMdfcnDt", PyVal.pstr ""), ("ingested_at", PyVal.pstr "")]) =
      Option.some "" := by
  refine ⟨?_, by decide⟩
  intro r h
  have hfalsy : (dictGet r "lastMdfcnDt").truthy = false := by
    rcases h with h | h <;> rw [h] <;> simp [PyVal.truthy]
  have h1 : pick_change_dt r = normCand (dictGet r "ingested_at") := by
    rw [pick_change_dt]
    simp [hfalsy]
  refine ⟨h1, ?_⟩
  rw [h1, pick_change_dt]
  have h2 : dictGet (removeKey r "lastMdfcnDt") "lastMdfcnDt" =
      PyVal.none := by
    rw [dictGet, dictFind_removeKey_self]
  have h3 : dictGet (removeKey r "lastMdfcnDt") "ingested_at" =
      dictGet r "ingested_at" := by
    rw [dictGet, dictGet,
      dictFind_removeKey_ne r "lastMdfcnDt" "ingested_at" (by decide)]
  simp [h2, PyVal.truthy, h3]

/-- Witness for C9 at a record whose primary field is null and whose
fallback holds a typed timestamp. -/
theorem falsy_primary_falls_back_witness :
    pick_change_dt (pyDictOf [("lastMdfcnDt", PyVal.none),
        ("ingested_at", PyVal.timestamp "2024-05-01T00:00:00")]) =
      normCand (dictGet (pyDictOf [("lastMdfcnDt", PyVal.none),
        ("ingested_at", PyVal.timestamp "2024-05-01T00:00:00")])
        "ingested_at")
    ∧ pick_change_dt (pyDictOf [("lastMdfcnDt", PyVal.none),
        ("ingested_at", PyVal.timestamp "2024-05-01T00:00:00")]) =
      pick_change_dt (removeKey (pyDictOf [("lastMdfcnDt", PyVal.none),
        ("ingested_at", PyVal.timestamp "2024-05-01T00:00:00")])
        "lastMdfcnDt") :=
  falsy_primary_falls_back.1
    (pyDictOf [("lastMdfcnDt", PyVal.none),
      ("ingested_at", PyVal.timestamp "2024-05-01T00:00:00")])
    (by decide)

/-- C10: normalization (hence exclusion) touches nothing below the top
level — with the five configured length-one excluded paths, `normAux` is
the identity at every nonempty path — and a differing
`raw_json.lastMdfcnDt`, formatted as the bare name after wrapper
stripping, is still emitted while the true top-level `lastMdfcnDt`
difference is suppressed. -/
theorem exclusion_only_top_level :
    (∀ (v : PyVal) (p : List Seg), p ≠ [] → normAux excludePaths p v = v)
    ∧ entityDiffRows "P1"
        [pyDictOf [("lastMdfcnDt", PyVal.pstr "t1"),
          ("raw_json", PyVal.pdict (pyDictOf
            [("lastMdfcnDt", PyVal.pstr "a"), ("z", PyVal.pint 1)]))],
         pyDictOf [("lastMdfcnDt", PyVal.pstr "t2"),
          ("raw_json", PyVal.pdict (pyDictOf
            [("lastMdfcnDt", PyVal.pstr "b"), ("z", PyVal.pint 1)]))]] =
        [⟨"P1", 2, "lastMdfcnDt", PyVal.pstr "a", PyVal.pstr "b",
          Option.some "t1", Option.some "t2"⟩] := by
  refine ⟨?_, by decide⟩
  intro v p hp
  exact normAux_deep_id excludePaths (by decide) v p hp

/-- Witness for C10: below the wrapper, an embedded `lastMdfcnDt` binding
survives normalization untouched. -/
theorem exclusion_only_top_level_witness :
    normAux excludePaths [Seg.key "raw_json"]
      (PyVal.pdict (pyDictOf [("lastMdfcnDt", PyVal.pstr "a")])) =
      PyVal.pdict (pyDictOf [("lastMdfcnDt", PyVal.pstr "a")]) :=
  exclusion_only_top_level.1
    (PyVal.pdict (pyDictOf [("lastMdfcnDt", PyVal.pstr "a")]))
    [Seg.key "raw_json"] (by decide)
